import Mathlib

/-!
Shallow embedding of the JSON schema-checker combinator module of Spyglass
(`object` / `record` / `opt` / `deprecated` / `dispatch` / `pick` / `when` /
`extract` / `having`).

Modelling conventions:
* A checker `(node, ctx) => void` that reports diagnostics through `ctx.err`
  and writes `node.expectation` and `prop.key.hover` slots is modelled as a
  pure function returning a `CheckResult`: the list of reported diagnostics
  (in report order), the list of hover-slot writes (key-node range, text), and
  the expectation (list of typedoc labels) this checker assigns to the node
  (`none` when the checker leaves the slot untouched).
* `localize(key, ...args)` is external (the locale catalog); diagnostic
  messages are modelled structurally by the `Msg` inductive carrying the
  localization arguments exactly as the source passes them.
* Documentation lookup `localize('json.doc.' + context)` is modelled by the
  `docs` function carried in the context (an external key -> text catalog;
  `none` when the catalog has no entry, i.e. the lookup is falsy).
* The depth-guarded block of `object` (source lines 30-45) only fills the
  `fields` / `keys` documentation metadata of the expectation via the external
  `expectation` helper (imported from `./util`, outside this slice); it reports
  no diagnostic and writes no hover text, and no claim depends on it, so it is
  not part of the model.
* `pick` mutates the matched record of its `cases` table in place and returns
  that very record; it is modelled by state passing: it returns the record
  together with the updated table.
-/

namespace Spyglass

/-- Source range `{start, end}` of a node (`end` is a Lean keyword, renamed `stop`). -/
structure Range where
  start : Nat
  stop : Nat
  deriving DecidableEq, Repr

/-- `Range.create(start, end)`. -/
def Range.create (start stop : Nat) : Range := ⟨start, stop⟩

/-- A key node: a `JsonStringNode` used as the key of a pair (value + range; its
mutable `hover` slot is modelled as checker output). -/
structure KeyNode where
  value : String
  range : Range
  deriving DecidableEq, Repr

/-- A JSON AST node.  Object children are `{key?, value?}` pairs; both key and
value may be absent on partially malformed input. -/
inductive JsonNode : Type where
  | obj (range : Range) (children : List (Option KeyNode × Option JsonNode))
  | str (range : Range) (value : String)
  | nullNode (range : Range)
  | other (range : Range) (tag : String)

/-- A child pair of an object node. -/
abbrev Pair := Option KeyNode × Option JsonNode

/-- `pair.key`. -/
def Pair.key (p : Pair) : Option KeyNode := p.1

/-- `pair.value`. -/
def Pair.value (p : Pair) : Option JsonNode := p.2

/-- `node.range`. -/
def JsonNode.range : JsonNode → Range
  | .obj r _ => r
  | .str r _ => r
  | .nullNode r => r
  | .other r _ => r

/-- `JsonObjectNode.is(node)`. -/
def JsonNode.isObj : JsonNode → Bool
  | .obj _ _ => true
  | _ => false

/-- Diagnostic severities (external contract; default severity is `Error`). -/
inductive ErrorSeverity where
  | Hint
  | Information
  | Warning
  | Error
  deriving DecidableEq, Repr

/-- `localeQuote(s)`: the external locale helper wrapping a name in quotes for
interpolation into a message (modelled as ASCII quoting; injective). -/
def localeQuote (s : String) : String := "\"" ++ s ++ "\""

/-- A localized diagnostic message, modelled structurally: one constructor per
`localize` key used by the module, carrying the arguments as passed. -/
inductive Msg where
  /-- `localize('expected', localize('object'))`. -/
  | expectedObject
  /-- `localize('json.checker.property.missing', args)`: `object` passes
  `localeQuote(k)`, `having` passes the raw list `Object.keys(cases)`. -/
  | propertyMissing (args : List String)
  /-- `localize('json.checker.property.unknown', localeQuote(key))`. -/
  | propertyUnknown (arg : String)
  /-- `localize('json.checker.property.deprecated', localeQuote(key))`. -/
  | propertyDeprecated (arg : String)
  deriving DecidableEq, Repr

/-- One diagnostic delivered to `ctx.err.report(message, anchor, severity?, tags?)`. -/
structure Diag where
  message : Msg
  range : Range
  severity : ErrorSeverity := .Error
  deprecatedTag : Bool := false
  deriving DecidableEq, Repr

/-- The observable effects of running one checker on one node. -/
structure CheckResult where
  /-- Diagnostics reported through `ctx.err`, in report order. -/
  diags : List Diag
  /-- Hover-slot writes `(key-node range, text)`, in write order. -/
  hovers : List (Range × String)
  /-- Typedoc labels assigned to `node.expectation` (`none`: slot untouched). -/
  expect : Option (List String)
  deriving DecidableEq, Repr

/-- `JsonCheckerContext`: depth counter (possibly absent), dotted documentation
path, and the external documentation catalog (the `err` sink is modelled as
checker output). -/
structure JsonCheckerContext where
  depth : Option Int := none
  context : String
  docs : String → Option String

/-- `JsonChecker`: `(node, ctx) => void`, modelled as a pure function onto its
observable effects. -/
abbrev JsonChecker := JsonNode → JsonCheckerContext → CheckResult

/-- `ComplexProperty = {checker, opt?, deprecated?, context?}` (absent boolean
flags are modelled as `false`, absent `context` as `none`). -/
structure ComplexProperty where
  checker : JsonChecker
  opt : Bool := false
  deprecated : Bool := false
  context : Option String := none

/-- `CheckerProperty = JsonChecker | ComplexProperty`; the runtime shape test
`isComplex` becomes a tagged union. -/
inductive CheckerProperty where
  | bare (checker : JsonChecker)
  | complex (prop : ComplexProperty)

/-- `isComplex(checker)`. -/
def CheckerProperty.isComplex : CheckerProperty → Bool
  | .bare _ => false
  | .complex _ => true

/-- `isComplex(value) ? value.checker : value`. -/
def CheckerProperty.checkerOf : CheckerProperty → JsonChecker
  | .bare c => c
  | .complex p => p.checker

/-- `isComplex(value) && value.opt` (truthiness of the `opt` flag). -/
def CheckerProperty.optOf : CheckerProperty → Bool
  | .bare _ => false
  | .complex p => p.opt

/-- `isComplex(value) && value.deprecated`. -/
def CheckerProperty.deprecatedOf : CheckerProperty → Bool
  | .bare _ => false
  | .complex p => p.deprecated

/-- `isComplex(value) ? value.context : undefined`. -/
def CheckerProperty.contextOf : CheckerProperty → Option String
  | .bare _ => none
  | .complex p => p.context

/-- `CheckerRecord = Record<string, CheckerProperty>`: a JS object, i.e. an
ordered association list with unique keys. -/
abbrev CheckerRecord := List (String × CheckerProperty)

/-- JS record indexing `r[k]` (`none` models `undefined`). -/
def recordGet (r : CheckerRecord) (k : String) : Option CheckerProperty :=
  (r.find? (fun kv => kv.1 = k)).map (fun kv => kv.2)

/-- `opt(checker)`. -/
def opt (checker : JsonChecker) : ComplexProperty :=
  { checker := checker, opt := true }

/-- `deprecated(checker)`. -/
def deprecated (checker : JsonChecker) : ComplexProperty :=
  { checker := checker, deprecated := true }

/-- The type-mismatch report `ctx.err.report(localize('expected', localize('object')), node)`. -/
def typeMismatchDiag (node : JsonNode) : Diag :=
  { message := .expectedObject, range := node.range }

/-- The missing-property report of `object`:
`ctx.err.report(localize('json.checker.property.missing', localeQuote(k)), Range.create(node.range.start, node.range.start + 1))`. -/
def mkMissingDiag (k : String) (start : Nat) : Diag :=
  { message := .propertyMissing [localeQuote k], range := Range.create start (start + 1) }

/-- The unknown-property report:
`ctx.err.report(localize('json.checker.property.unknown', localeQuote(key)), prop.key!, ErrorSeverity.Warning)`. -/
def mkUnknownDiag (kn : KeyNode) : Diag :=
  { message := .propertyUnknown (localeQuote kn.value), range := kn.range
    severity := .Warning }

/-- The deprecated-usage report:
`ctx.err.report(localize('json.checker.property.deprecated', localeQuote(key)), prop.key!, ErrorSeverity.Hint, { deprecated: true })`. -/
def mkDeprecatedDiag (kn : KeyNode) : Diag :=
  { message := .propertyDeprecated (localeQuote kn.value), range := kn.range
    severity := .Hint, deprecatedTag := true }

/-- Whether a diagnostic is an unknown-property report (used to state claims
about the unknown-property pass). -/
def Diag.isUnknown (d : Diag) : Bool :=
  match d.message with
  | .propertyUnknown _ => true
  | _ => false

/-- `` propNode.expectation?.map(e => e.typedoc).join(' | ') `` interpolated into a
template literal: an absent expectation renders as the string `undefined`. -/
def typedocJoin : Option (List String) → String
  | none => "undefined"
  | some l => String.intercalate " | " l

/-- The extended documentation path of a property (source line 69):
``` `${ctx.context}.${isComplex(value) && value.context ? `${value.context}.` : ''}${key}` ```
(an empty-string `context` override is falsy in JS and adds nothing). -/
def extendContext (base : String) (value : CheckerProperty) (key : String) : String :=
  base ++ "." ++
    (match value.contextOf with
      | some c => if c = "" then "" else c ++ "."
      | none => "") ++ key

/-- The synthetic placeholder for a pair without a value (source line 71):
`{ type: 'json:null', range: Range.create(0) }`. -/
def nullPlaceholder : JsonNode := .nullNode (Range.create 0 0)

/-- The hover text written into `prop.key!.hover` (source line 73). -/
def hoverText (context : String) (expect : Option (List String)) (doc : Option String) : String :=
  "```typescript\n" ++ context ++ ": " ++ typedocJoin expect ++ "\n```" ++
    (match doc with
      | some d => "\n******\n" ++ d
      | none => "")

/-- The missing-property pass of fixed-key `object` (source lines 51-59):
`keys.forEach` reports one diagnostic per key whose spec is not
optional/deprecated and which is absent from the given keys. -/
def objMissing (keys : List String) (values : String → CheckerProperty)
    (givenKeys : List (Option String)) (start : Nat) : List Diag :=
  keys.filterMap fun k =>
    let value := values k
    if value.optOf || value.deprecatedOf then none
    else if givenKeys.contains (some k) then none
    else some (mkMissingDiag k start)

/-- What processing one keyed child pair of a fixed-key `object` produces:
the diagnostics the combinator itself reports for the pair, the diagnostics of
the recursive property-checker call, and the hover writes. -/
structure PairOut where
  direct : List Diag
  nested : List Diag
  hovers : List (Range × String)

/-- All diagnostics of one pair, in report order (the direct unknown/deprecated
report precedes the recursive call). -/
def PairOut.diags (o : PairOut) : List Diag := o.direct ++ o.nested

/-- The per-pair pass of fixed-key `object` (source lines 60-75). -/
def objPair (keys : List String) (values : String → CheckerProperty)
    (ctx : JsonCheckerContext) (p : Pair) : PairOut :=
  match p.key with
  | none => ⟨[], [], []⟩
  | some kn =>
    let key := kn.value
    if keys.contains key then
      let value := values key
      let dep := if value.deprecatedOf then [mkDeprecatedDiag kn] else []
      let context := extendContext ctx.context value key
      let doc := ctx.docs ("json.doc." ++ context)
      let propNode := (p.value).getD nullPlaceholder
      let res := value.checkerOf propNode { ctx with context := context }
      ⟨dep, res.diags, res.hovers ++ [(kn.range, hoverText context res.expect doc)]⟩
    else
      ⟨[mkUnknownDiag kn], [], []⟩

/-- The per-pair pass of dynamic-key `object` (source lines 77-83): run the key
checker on the key node, then — when a value is present — the value checker on
the value node with the unmodified context. -/
def dynPair (keys : JsonChecker) (values : String → CheckerProperty)
    (ctx : JsonCheckerContext) (p : Pair) : List Diag × List (Range × String) :=
  match p.key with
  | none => ([], [])
  | some kn =>
    let kres := keys (.str kn.range kn.value) ctx
    match p.value with
    | none => (kres.diags, kres.hovers)
    | some v =>
      let value := values kn.value
      let vres := value.checkerOf v ctx
      (kres.diags ++ vres.diags, kres.hovers ++ vres.hovers)

/-- `object(keys?, values?)` (all three overloads: no schema / fixed key list /
key-predicate checker). -/
def object (keys : Option (List String ⊕ JsonChecker))
    (values : Option (String → CheckerProperty)) : JsonChecker :=
  fun node ctx =>
    match node with
    | .obj rng children =>
      match keys, values with
      | some (.inl ks), some vs =>
        let givenKeys := children.map (fun n => (Pair.key n).map KeyNode.value)
        let outs := (children.filter (fun p => (Pair.key p).isSome)).map (objPair ks vs ctx)
        { diags := objMissing ks vs givenKeys rng.start ++ (outs.map PairOut.diags).flatten
          hovers := (outs.map PairOut.hovers).flatten
          expect := some ["Object"] }
      | some (.inr kc), some vs =>
        let outs := (children.filter (fun p => (Pair.key p).isSome)).map (dynPair kc vs ctx)
        { diags := (outs.map Prod.fst).flatten
          hovers := (outs.map Prod.snd).flatten
          expect := some ["Object"] }
      | _, _ =>
        { diags := [], hovers := [], expect := some ["Object"] }
    | _ =>
      { diags := [typeMismatchDiag node], hovers := [], expect := some ["Object"] }

/-- A property spec JS would read as `undefined`: unreachable stand-in used
where the source indexes a record with a key taken from that record's own
`Object.keys`. -/
def undefinedProperty : CheckerProperty :=
  .bare (fun _ _ => { diags := [], hovers := [], expect := none })

/-- `record(properties) = object(Object.keys(properties), key => properties[key])`. -/
def record (properties : CheckerRecord) : JsonChecker :=
  object (some (.inl (properties.map Prod.fst)))
    (some fun key => (recordGet properties key).getD undefinedProperty)

/-- The discriminant extraction of `dispatch` (source lines 108-110): the value
of the first child pair whose key equals `keyName`, as a string if that pair's
value is a string node, else `undefined`.  The source computes
`findIndex` and then indexes the children (indexing at `-1` yields
`undefined`), which is first-match lookup, i.e. `find?`. -/
def discValue (keyName : String) (children : List Pair) : Option String :=
  let dispatcher := children.find? (fun p => (Pair.key p).map KeyNode.value = some keyName)
  match dispatcher with
  | some pr =>
    match Pair.value pr with
    | some (.str _ s) => some s
    | _ => none
  | none => none

/-- `dispatch(keyName, values)`: requires an object node, extracts the
discriminant, and applies the checker `values(value, children)` to the whole
node with the unmodified context. -/
def dispatch (keyName : String)
    (values : Option String → List Pair → JsonChecker) : JsonChecker :=
  fun node ctx =>
    match node with
    | .obj _ children =>
      values (discValue keyName children) children node ctx
    | _ =>
      { diags := [typeMismatchDiag node], hovers := [], expect := none }

/-- `value.replace(/^minecraft:/, '')`: strip one leading `minecraft:` (10
characters) when present.  Implemented on the character list so that it
evaluates by kernel reduction. -/
def stripMinecraft (s : String) : String :=
  if ("minecraft:".data).isPrefixOf s.data then String.mk (s.data.drop 10) else s

/-- The per-entry overwrite `pick` performs on the matched record (source lines
125-131): every property becomes a `ComplexProperty` with the same checker and
flags and with `context` set to the stripped case name. -/
def rewriteProp (caseName : String) (p : CheckerProperty) : CheckerProperty :=
  .complex
    { checker := p.checkerOf
      opt := p.optOf
      deprecated := p.deprecatedOf
      context := some caseName }

/-- The whole-record overwrite of `pick`. -/
def rewriteRecord (caseName : String) (r : CheckerRecord) : CheckerRecord :=
  r.map (fun kv => (kv.1, rewriteProp caseName kv.2))

/-- The table `pick` dispatches over: case name -> property record. -/
abbrev CasesTable := List (String × CheckerRecord)

/-- JS record indexing `cases[name]` on a case table. -/
def casesGet (cases : CasesTable) (name : String) : Option CheckerRecord :=
  (cases.find? (fun kv => kv.1 = name)).map (fun kv => kv.2)

/-- In-place replacement of the record stored under `name` (the effect of
`pick`'s mutation on the shared table). -/
def casesUpdate (cases : CasesTable) (name : String) (r : CheckerRecord) : CasesTable :=
  cases.map (fun kv => if kv.1 = name then (kv.1, r) else kv)

/-- `pick(value, cases)`.  The source mutates the matched record in place and
returns that very record; the model returns the record together with the
updated table (the second component is the table the caller's `cases` variable
now denotes). -/
def pick (value : Option String) (cases : CasesTable) : CheckerRecord × CasesTable :=
  match value with
  | none => ([], cases)
  | some v =>
    let name := stripMinecraft v
    match casesGet cases name with
    | none => ([], cases)
    | some properties =>
      let properties' := rewriteRecord name properties
      (properties', casesUpdate cases name properties')

/-- `when(value, values, properties, notProperties = {})`. -/
def when (value : Option String) (values : List String)
    (properties : CheckerRecord) (notProperties : CheckerRecord := []) : CheckerRecord :=
  match value with
  | none => []
  | some v =>
    if values.contains (stripMinecraft v) then properties else notProperties

/-- `extract(value, children)`: the string value of the named sibling key, else
`undefined`. -/
def extract (value : String) (children : List Pair) : Option String :=
  let node := children.find? (fun p => (Pair.key p).map KeyNode.value = some value)
  match node with
  | some pr =>
    match Pair.value pr with
    | some (.str _ s) => some s
    | _ => none
  | none => none

/-- A case of `having`: a record given directly or as a zero-argument producer
function deferring its construction. -/
abbrev HavingCase := CheckerRecord ⊕ (Unit → CheckerRecord)

/-- `typeof c === 'function' ? c() : c`. -/
def evalCase : HavingCase → CheckerRecord
  | .inl r => r
  | .inr f => f ()

/-- Indexing `cases[key]` on a `having` case table. -/
def havingGet (cases : List (String × HavingCase)) (k : String) : Option HavingCase :=
  (cases.find? (fun kv => kv.1 = k)).map (fun kv => kv.2)

/-- The given keys `having` collects (source lines 152-153): the keys of the
children when the node is an object, else the empty set. -/
def givenOptKeys (node : JsonNode) : List (Option String) :=
  match node with
  | .obj _ children => children.map (fun n => (Pair.key n).map KeyNode.value)
  | _ => []

/-- A record whose values may be `undefined`: the shape `having`'s fallback
`Object.fromEntries` can build when a candidate branch lacks its own marker key. -/
abbrev CheckerRecordU := List (String × Option CheckerProperty)

/-- A proper record viewed as a record with no `undefined` values. -/
def CheckerRecord.toU (r : CheckerRecord) : CheckerRecordU :=
  r.map (fun kv => (kv.1, some kv.2))

/-- The missing-discriminant report of `having` (source line 157):
`ctx.err.report(localize('json.checker.property.missing', Object.keys(cases)), Range.create(node.range.start, node.range.start + 1))`. -/
def havingMissingDiag (caseKeys : List String) (start : Nat) : Diag :=
  { message := .propertyMissing caseKeys, range := Range.create start (start + 1) }

/-- `having(node, ctx, cases)`: marker-key-based variant resolution.  Returns
the reported diagnostics together with the selected (or fallback) record.  The
context argument carries only the diagnostic sink here, which is modelled as
output. -/
def having (node : JsonNode) (_ctx : JsonCheckerContext)
    (cases : List (String × HavingCase)) : List Diag × CheckerRecordU :=
  let givenKeys := givenOptKeys node
  let key := (cases.map Prod.fst).find? (fun c => givenKeys.contains (some c))
  match key with
  | none =>
    ([havingMissingDiag (cases.map Prod.fst) node.range.start],
      cases.map (fun kv => (kv.1, recordGet (evalCase kv.2) kv.1)))
  | some k =>
    ([], CheckerRecord.toU (evalCase ((havingGet cases k).getD (.inl []))))

/-- The canonical stateful composition
`dispatch(keyName, (v, _) => record(pick(v, cases)))`, with the shared mutable
case table threaded explicitly: one validation run returns its observable
output and the table state the run leaves behind. -/
def runPickDispatch (keyName : String) (cases : CasesTable)
    (node : JsonNode) (ctx : JsonCheckerContext) : CheckResult × CasesTable :=
  match node with
  | .obj _ children =>
    let v := discValue keyName children
    (record (pick v cases).1 node ctx, (pick v cases).2)
  | _ =>
    ({ diags := [typeMismatchDiag node], hovers := [], expect := none }, cases)

/-! ### Helper lemmas -/

theorem localeQuote_injective : Function.Injective localeQuote := by
  intro a b h
  have h2 : ("\"" ++ a ++ "\"").data = ("\"" ++ b ++ "\"").data := congrArg String.data h
  simp only [String.data_append] at h2
  have h3 := List.append_cancel_right h2
  exact String.ext (List.append_cancel_left h3)

/-- The missing pass is the one-diagnostic-per-key image of the required-and-absent
sublist of the schema keys. -/
theorem objMissing_eq (ks : List String) (vs : String → CheckerProperty)
    (given : List (Option String)) (start : Nat) :
    objMissing ks vs given start =
      (ks.filter fun k => !((vs k).optOf || (vs k).deprecatedOf) && !(given.contains (some k))).map
        (fun k => mkMissingDiag k start) := by
  induction ks with
  | nil => rfl
  | cons a t ih =>
    simp only [objMissing, List.filterMap_cons, List.filter_cons] at ih ⊢
    cases h1 : ((vs a).optOf || (vs a).deprecatedOf) with
    | true => simpa [h1] using ih
    | false =>
      cases h2 : given.contains (some a) with
      | true => simpa [h1, h2] using ih
      | false => simpa [h1, h2] using ih

/-- `find?` returns the head of the filtered list. -/
theorem find?_eq_head?_filter {α : Type} (p : α → Bool) (l : List α) :
    l.find? p = (l.filter p).head? := by
  induction l with
  | nil => rfl
  | cons a t ih =>
    cases h : p a with
    | true => rw [List.find?_cons_of_pos _ h, List.filter_cons_of_pos h, List.head?_cons]
    | false => rw [List.find?_cons_of_neg _ (by simp [h]), List.filter_cons_of_neg (by simp [h]), ih]

/-- After the in-place update, the table stores the new record under the
matched name. -/
theorem casesGet_casesUpdate (cases : CasesTable) (name : String) (r : CheckerRecord)
    (h : (casesGet cases name).isSome) :
    casesGet (casesUpdate cases name r) name = some r := by
  induction cases with
  | nil => simp [casesGet] at h
  | cons kv t ih =>
    by_cases hk : kv.1 = name
    · simp [casesGet, casesUpdate, List.find?_cons, hk]
    · simp only [casesGet, casesUpdate, List.map_cons, if_neg hk, List.find?_cons] at h ⊢
      simp only [hk, decide_False] at h ⊢
      exact ih h

/-- Updating the same name twice keeps only the second record. -/
theorem casesUpdate_casesUpdate (cases : CasesTable) (name : String)
    (r r' : CheckerRecord) :
    casesUpdate (casesUpdate cases name r) name r' = casesUpdate cases name r' := by
  simp only [casesUpdate, List.map_map]
  apply List.map_congr_left
  intro kv _
  by_cases hk : kv.1 = name
  · simp [Function.comp, hk]
  · simp [Function.comp, hk]

/-- The per-entry overwrite of `pick` is a projection: overwriting an already
overwritten property changes nothing. -/
theorem rewriteProp_idem (name : String) (p : CheckerProperty) :
    rewriteProp name (rewriteProp name p) = rewriteProp name p := by
  cases p <;> rfl

/-- The whole-record overwrite of `pick` is a projection. -/
theorem rewriteRecord_idem (name : String) (r : CheckerRecord) :
    rewriteRecord name (rewriteRecord name r) = rewriteRecord name r := by
  simp only [rewriteRecord, List.map_map]
  apply List.map_congr_left
  intro kv _
  simp [Function.comp, rewriteProp_idem]

/-- A second `pick` of the same discriminant from the table state the first
`pick` left behind returns the same record and leaves the table unchanged. -/
theorem pick_fixpoint (value : Option String) (s : CasesTable) :
    pick value (pick value s).2 = pick value s := by
  match value with
  | none => rfl
  | some v =>
    simp only [pick]
    cases h : casesGet s (stripMinecraft v) with
    | none => simp [h]
    | some props =>
      simp only [h]
      have hs : (casesGet s (stripMinecraft v)).isSome = true := by simp [h]
      rw [casesGet_casesUpdate s (stripMinecraft v) (rewriteRecord (stripMinecraft v) props) hs]
      simp [rewriteRecord_idem, casesUpdate_casesUpdate]

/-- Distinct keys produce distinct missing-property diagnostics. -/
theorem mkMissingDiag_inj (s : Nat) {a b : String}
    (h : mkMissingDiag a s = mkMissingDiag b s) : a = b := by
  have hm : Msg.propertyMissing [localeQuote a] = Msg.propertyMissing [localeQuote b] :=
    congrArg Diag.message h
  have h2 := Msg.propertyMissing.inj hm
  injection h2 with h3 _
  exact localeQuote_injective h3

/-- Distinct key nodes produce distinct unknown-property diagnostics. -/
theorem mkUnknownDiag_inj {a b : KeyNode}
    (h : mkUnknownDiag a = mkUnknownDiag b) : a = b := by
  have hm : Msg.propertyUnknown (localeQuote a.value) = Msg.propertyUnknown (localeQuote b.value) :=
    congrArg Diag.message h
  have hv : a.value = b.value := localeQuote_injective (Msg.propertyUnknown.inj hm)
  have hr : a.range = b.range := congrArg Diag.range h
  cases a
  cases b
  simp_all

/-- Among the diagnostics the fixed-key combinator itself reports per pair, the
unknown-property ones are exactly one per undeclared given key, in input order. -/
theorem objPairs_direct_unknown (ks : List String) (vs : String → CheckerProperty)
    (ctx : JsonCheckerContext) (children : List Pair) :
    ((((children.filter (fun p => (Pair.key p).isSome)).map (objPair ks vs ctx)).map
        PairOut.direct).flatten).filter Diag.isUnknown =
      ((children.filterMap Pair.key).filter (fun kn => !(ks.contains kn.value))).map
        mkUnknownDiag := by
  induction children with
  | nil => rfl
  | cons p t ih =>
    obtain ⟨ok, ov⟩ := p
    cases ok with
    | none => simpa [Pair.key] using ih
    | some kn =>
      by_cases hc : kn.value ∈ ks
      · cases hd : (vs kn.value).deprecatedOf with
        | true => simpa [Pair.key, objPair, hc, hd, Diag.isUnknown, mkDeprecatedDiag] using ih
        | false => simpa [Pair.key, objPair, hc, hd] using ih
      · simpa [Pair.key, objPair, hc, Diag.isUnknown, mkUnknownDiag] using ih

/-! ### Test fixtures (concrete instances of the external leaf-checker contract,
used by the witness theorems) -/

/-- A leaf checker that accepts anything and assigns a `Leaf` expectation. -/
def leafChecker : JsonChecker :=
  fun _ _ => { diags := [], hovers := [], expect := some ["Leaf"] }

/-- A leaf checker that always reports one diagnostic at the node. -/
def failChecker : JsonChecker :=
  fun node _ => { diags := [typeMismatchDiag node], hovers := [], expect := some ["Fail"] }

/-- A concrete context. -/
def ctx0 : JsonCheckerContext :=
  { depth := none, context := "root", docs := fun _ => none }

/-- A concrete one-property record. -/
def pickRec0 : CheckerRecord := [("x", .bare leafChecker)]

/-- A concrete case table for `pick`. -/
def pickCases0 : CasesTable := [("foo", pickRec0), ("bar", [])]

/-- A concrete selector for `dispatch`. -/
def sel0 : Option String → List Pair → JsonChecker :=
  fun v _ => if v = some "foo" then record pickRec0 else object none none

/-- Concrete children holding a string-valued `type` pair. -/
def childrenD : List Pair :=
  [(some ⟨"type", ⟨1, 7⟩⟩, some (.str ⟨8, 12⟩ "foo")),
   (some ⟨"x", ⟨14, 17⟩⟩, some (.nullNode ⟨18, 22⟩))]

/-! ### Claims -/

/-- Claim C3: for every object checker applied to a non-object node, exactly one
type-mismatch diagnostic is reported (default `Error` severity, anchored at the
node) and no missing/unknown/deprecated analysis or recursion into children is
performed; the outcome is the same for every schema argument, so the failure is
local to this node and cannot affect sibling or ancestor checks. -/
theorem C3_object_type_mismatch
    (keys keys₂ : Option (List String ⊕ JsonChecker))
    (values values₂ : Option (String → CheckerProperty))
    (node : JsonNode) (ctx : JsonCheckerContext)
    (h : node.isObj = false) :
    object keys values node ctx =
      { diags := [{ message := .expectedObject, range := node.range, severity := .Error, deprecatedTag := false }]
        hovers := [], expect := some ["Object"] } ∧
    object keys values node ctx = object keys₂ values₂ node ctx := by
  cases node with
  | obj r c => simp [JsonNode.isObj] at h
  | str r v => exact ⟨rfl, rfl⟩
  | nullNode r => exact ⟨rfl, rfl⟩
  | other r t => exact ⟨rfl, rfl⟩

/-- Witness for C3: a string node under both the no-schema checker and a
fixed-key checker. -/
theorem C3_object_type_mismatch_witness :
    object none none (.str ⟨0, 3⟩ "hi") ctx0 =
      { diags := [{ message := .expectedObject, range := ⟨0, 3⟩, severity := .Error, deprecatedTag := false }]
        hovers := [], expect := some ["Object"] } ∧
    object none none (.str ⟨0, 3⟩ "hi") ctx0 =
      object (some (.inl ["a"])) (some fun _ => .bare leafChecker) (.str ⟨0, 3⟩ "hi") ctx0 :=
  C3_object_type_mismatch none (some (.inl ["a"])) none (some fun _ => .bare leafChecker)
    (.str ⟨0, 3⟩ "hi") ctx0 rfl

/-- Claim C5: `pick` returns the empty record (and emits nothing: it has no
diagnostic output at all) when the discriminant is `undefined` or, after
stripping the `minecraft:` prefix, matches no case; otherwise it returns the
matched case's record with every property's checker and optional/deprecated
flags preserved and its documentation-path override set to the stripped case
name. -/
theorem C5_pick_result
    (v : String) (cases : CasesTable) (props : CheckerRecord) :
    pick none cases = ([], cases) ∧
    (casesGet cases (stripMinecraft v) = none → pick (some v) cases = ([], cases)) ∧
    (casesGet cases (stripMinecraft v) = some props →
      (pick (some v) cases).1 =
        props.map (fun kv =>
          (kv.1, CheckerProperty.complex
            { checker := kv.2.checkerOf, opt := kv.2.optOf
              deprecated := kv.2.deprecatedOf, context := some (stripMinecraft v) }))) := by
  refine ⟨rfl, ?_, ?_⟩
  · intro h
    simp [pick, h]
  · intro h
    simp [pick, h, rewriteRecord, rewriteProp]

/-- Witness for C5: a missing case and a `minecraft:`-prefixed matching case. -/
theorem C5_pick_result_witness :
    pick (some "baz") pickCases0 = ([], pickCases0) ∧
    (pick (some "minecraft:foo") pickCases0).1 =
      pickRec0.map (fun kv =>
        (kv.1, CheckerProperty.complex
          { checker := kv.2.checkerOf, opt := kv.2.optOf
            deprecated := kv.2.deprecatedOf, context := some (stripMinecraft "minecraft:foo") })) :=
  ⟨(C5_pick_result "baz" pickCases0 []).2.1 rfl,
   (C5_pick_result "minecraft:foo" pickCases0 pickRec0).2.2 rfl⟩

/-- Claim C9: `pick` with a defined, matching discriminant mutates its argument
in place: it returns the rewritten record, the caller's table now stores that
very record under the matched name, every entry of the returned record has been
overwritten with a complex spec `{checker, opt, deprecated, context}`, and
whenever the overwrite changes the record the caller's table has changed as a
side effect of the call. -/
theorem C9_pick_mutates
    (v : String) (cases : CasesTable) (props : CheckerRecord)
    (hhit : casesGet cases (stripMinecraft v) = some props) :
    (pick (some v) cases).1 = rewriteRecord (stripMinecraft v) props ∧
    (pick (some v) cases).2 =
      casesUpdate cases (stripMinecraft v) (rewriteRecord (stripMinecraft v) props) ∧
    casesGet (pick (some v) cases).2 (stripMinecraft v) = some (pick (some v) cases).1 ∧
    (((pick (some v) cases).1.map (fun kv => kv.2.isComplex)).all (fun b => b)) = true ∧
    (rewriteRecord (stripMinecraft v) props ≠ props → (pick (some v) cases).2 ≠ cases) := by
  have h1 : (pick (some v) cases).1 = rewriteRecord (stripMinecraft v) props := by
    simp [pick, hhit]
  have h2 : (pick (some v) cases).2 =
      casesUpdate cases (stripMinecraft v) (rewriteRecord (stripMinecraft v) props) := by
    simp [pick, hhit]
  refine ⟨h1, h2, ?_, ?_, ?_⟩
  · rw [h1, h2]
    exact casesGet_casesUpdate cases _ _ (by simp [hhit])
  · rw [h1]
    simp [rewriteRecord, rewriteProp, List.all_eq_true, CheckerProperty.isComplex]
  · intro hne hEq
    have hg := casesGet_casesUpdate cases (stripMinecraft v)
      (rewriteRecord (stripMinecraft v) props) (by simp [hhit])
    rw [h2] at hEq
    rw [hEq, hhit] at hg
    exact hne (Option.some.inj hg).symm

/-- Witness for C9: after `pick('minecraft:foo', …)` the table stores the
returned record and differs from the original table. -/
theorem C9_pick_mutates_witness :
    casesGet (pick (some "minecraft:foo") pickCases0).2 (stripMinecraft "minecraft:foo") =
      some (pick (some "minecraft:foo") pickCases0).1 ∧
    (pick (some "minecraft:foo") pickCases0).2 ≠ pickCases0 :=
  ⟨(C9_pick_mutates "minecraft:foo" pickCases0 pickRec0 rfl).2.2.1,
   (C9_pick_mutates "minecraft:foo" pickCases0 pickRec0 rfl).2.2.2.2
     (by intro h; simp [rewriteRecord, rewriteProp, pickRec0] at h)⟩

/-- Claim C6: the checker `dispatch(keyName, selector)` reports exactly one
type-mismatch diagnostic on a non-object node without invoking the selector (the
outcome is the same for every selector); on an object node the discriminant
passed to the selector is the string value of the first child pair keyed by
`keyName` (`undefined` when the pair is absent or its value is not a string
node) and the selected checker is applied to the whole node with the unmodified
context. -/
theorem C6_dispatch
    (keyName : String) (sel sel₂ : Option String → List Pair → JsonChecker)
    (node : JsonNode) (ctx : JsonCheckerContext)
    (rng : Range) (children : List Pair) :
    (node.isObj = false →
      dispatch keyName sel node ctx =
        { diags := [{ message := .expectedObject, range := node.range, severity := .Error, deprecatedTag := false }]
          hovers := [], expect := none } ∧
      dispatch keyName sel node ctx = dispatch keyName sel₂ node ctx) ∧
    dispatch keyName sel (.obj rng children) ctx =
      sel (discValue keyName children) children (.obj rng children) ctx ∧
    discValue keyName children =
      (match children.find? (fun p => (Pair.key p).map KeyNode.value = some keyName) with
        | some pr =>
          match Pair.value pr with
          | some (.str _ s) => some s
          | _ => none
        | none => none) := by
  refine ⟨?_, rfl, rfl⟩
  intro h
  cases node with
  | obj r c => simp [JsonNode.isObj] at h
  | str r v => exact ⟨rfl, rfl⟩
  | nullNode r => exact ⟨rfl, rfl⟩
  | other r t => exact ⟨rfl, rfl⟩

/-- Witness for C6: a null node (type mismatch) and an object whose `type` pair
selects the `foo` case. -/
theorem C6_dispatch_witness :
    dispatch "type" sel0 (.nullNode ⟨5, 6⟩) ctx0 =
      { diags := [{ message := .expectedObject, range := ⟨5, 6⟩, severity := .Error, deprecatedTag := false }]
        hovers := [], expect := none } ∧
    dispatch "type" sel0 (.obj ⟨0, 23⟩ childrenD) ctx0 =
      sel0 (discValue "type" childrenD) childrenD (.obj ⟨0, 23⟩ childrenD) ctx0 ∧
    discValue "type" childrenD = some "foo" :=
  ⟨((C6_dispatch "type" sel0 sel0 (.nullNode ⟨5, 6⟩) ctx0 ⟨0, 23⟩ childrenD).1 rfl).1,
   (C6_dispatch "type" sel0 sel0 (.nullNode ⟨5, 6⟩) ctx0 ⟨0, 23⟩ childrenD).2.1,
   rfl⟩

/-- Claim C1: fixed-key `object` on an object node first reports exactly one
missing-property diagnostic — anchored at the one-character range at the
object's range start — for each schema key that is neither optional nor
deprecated and absent from the given keys (one per key since schema keys are
unique); optional/deprecated keys are never reported missing; and the missing
set depends on the given keys only through membership, so it is independent of
key order. -/
theorem C1_object_missing
    (ks : List String) (vs : String → CheckerProperty) (rng : Range)
    (children children₂ : List Pair) (ctx : JsonCheckerContext)
    (hnd : ks.Nodup)
    (hperm : List.Perm (children₂.map (fun p => (Pair.key p).map KeyNode.value))
      (children.map (fun p => (Pair.key p).map KeyNode.value))) :
    object (some (.inl ks)) (some vs) (.obj rng children) ctx =
      { diags :=
          objMissing ks vs (children.map (fun p => (Pair.key p).map KeyNode.value)) rng.start ++
            (((children.filter (fun p => (Pair.key p).isSome)).map (objPair ks vs ctx)).map
              PairOut.diags).flatten
        hovers :=
          (((children.filter (fun p => (Pair.key p).isSome)).map (objPair ks vs ctx)).map
            PairOut.hovers).flatten
        expect := some ["Object"] } ∧
    objMissing ks vs (children.map (fun p => (Pair.key p).map KeyNode.value)) rng.start =
      (ks.filter fun k => !((vs k).optOf || (vs k).deprecatedOf) &&
          !((children.map (fun p => (Pair.key p).map KeyNode.value)).contains (some k))).map
        (fun k => mkMissingDiag k rng.start) ∧
    (ks.filter fun k => !((vs k).optOf || (vs k).deprecatedOf) &&
        !((children.map (fun p => (Pair.key p).map KeyNode.value)).contains (some k))).Nodup ∧
    ((ks.filter fun k => ((vs k).optOf || (vs k).deprecatedOf)).all
      (fun k => !((objMissing ks vs (children.map (fun p => (Pair.key p).map KeyNode.value))
        rng.start).contains (mkMissingDiag k rng.start)))) = true ∧
    objMissing ks vs (children₂.map (fun p => (Pair.key p).map KeyNode.value)) rng.start =
      objMissing ks vs (children.map (fun p => (Pair.key p).map KeyNode.value)) rng.start := by
  refine ⟨rfl, objMissing_eq ks vs _ rng.start, hnd.filter _, ?_, ?_⟩
  · rw [objMissing_eq, List.all_eq_true]
    intro k hk
    obtain ⟨hk1, hk2⟩ := List.mem_filter.1 hk
    rw [Bool.not_eq_true']
    simp only [List.elem_eq_mem, decide_eq_false_iff_not]
    intro hmem
    obtain ⟨k', hk', heq⟩ := List.mem_map.1 hmem
    have hkk : k' = k := mkMissingDiag_inj rng.start heq
    subst hkk
    have h2 := (List.mem_filter.1 hk').2
    rw [hk2] at h2
    simp at h2
  · unfold objMissing
    apply List.filterMap_congr
    intro k _
    have hc : (children₂.map (fun p => (Pair.key p).map KeyNode.value)).contains (some k) =
        (children.map (fun p => (Pair.key p).map KeyNode.value)).contains (some k) := by
      simp only [List.elem_eq_mem]
      exact decide_eq_decide.mpr hperm.mem_iff
    rw [hc]

/-- Witness fixtures for C1: an object giving key `c` plus one keyless pair,
and the same pairs in the opposite order. -/
def rngW : Range := ⟨0, 20⟩

/-- Children for the C1 witness. -/
def childrenW : List Pair :=
  [(some ⟨"c", ⟨1, 4⟩⟩, some (.str ⟨6, 9⟩ "v")), (none, some (.nullNode ⟨10, 11⟩))]

/-- The C1 witness children reordered. -/
def childrenW2 : List Pair :=
  [(none, some (.nullNode ⟨10, 11⟩)), (some ⟨"c", ⟨1, 4⟩⟩, some (.str ⟨6, 9⟩ "v"))]

/-- Schema for the C1 witness: `b` optional, `a` and `c` required. -/
def vsW : String → CheckerProperty :=
  fun k => if k = "b" then .complex (opt leafChecker) else .bare leafChecker

/-- Witness for C1: only required-and-absent `a` is reported, in either key
order. -/
theorem C1_object_missing_witness :
    objMissing ["a", "b", "c"] vsW (childrenW.map (fun p => (Pair.key p).map KeyNode.value))
      rngW.start = [mkMissingDiag "a" rngW.start] ∧
    objMissing ["a", "b", "c"] vsW (childrenW2.map (fun p => (Pair.key p).map KeyNode.value))
      rngW.start = [mkMissingDiag "a" rngW.start] := by
  have h := C1_object_missing ["a", "b", "c"] vsW rngW childrenW childrenW2 ctx0
    (by decide) (by decide)
  constructor
  · rw [h.2.1]
    rfl
  · rw [h.2.2.2.2, h.2.1]
    rfl

/-- Claim C2: fixed-key `object` on an object node reports, among its own
per-pair diagnostics, exactly one unknown-property diagnostic per given key not
declared in the schema — one per occurrence, in input order, of `Warning`
severity, anchored at that key node — and no unknown-property diagnostic for
any declared given key. -/
theorem C2_object_unknown
    (ks : List String) (vs : String → CheckerProperty) (rng : Range)
    (children : List Pair) (ctx : JsonCheckerContext) :
    object (some (.inl ks)) (some vs) (.obj rng children) ctx =
      { diags :=
          objMissing ks vs (children.map (fun p => (Pair.key p).map KeyNode.value)) rng.start ++
            (((children.filter (fun p => (Pair.key p).isSome)).map (objPair ks vs ctx)).map
              PairOut.diags).flatten
        hovers :=
          (((children.filter (fun p => (Pair.key p).isSome)).map (objPair ks vs ctx)).map
            PairOut.hovers).flatten
        expect := some ["Object"] } ∧
    ((((children.filter (fun p => (Pair.key p).isSome)).map (objPair ks vs ctx)).map
        PairOut.direct).flatten).filter Diag.isUnknown =
      ((children.filterMap Pair.key).filter (fun kn => !(ks.contains kn.value))).map
        mkUnknownDiag ∧
    (((children.filterMap Pair.key).filter (fun kn => !(ks.contains kn.value))).map
        mkUnknownDiag).all
      (fun d => d.severity == ErrorSeverity.Warning) = true ∧
    (((children.filterMap Pair.key).filter (fun kn => ks.contains kn.value)).all
      (fun kn => !(((((children.filter (fun p => (Pair.key p).isSome)).map
        (objPair ks vs ctx)).map PairOut.direct).flatten).contains (mkUnknownDiag kn)))) = true := by
  refine ⟨rfl, objPairs_direct_unknown ks vs ctx children, ?_, ?_⟩
  · rw [List.all_eq_true]
    intro d hd
    obtain ⟨kn, _, hkn⟩ := List.mem_map.1 hd
    rw [← hkn]
    rfl
  · rw [List.all_eq_true]
    intro kn hkn
    obtain ⟨hk1, hk2⟩ := List.mem_filter.1 hkn
    rw [Bool.not_eq_true']
    simp only [List.elem_eq_mem, decide_eq_false_iff_not]
    intro hmem
    have hmem2 : mkUnknownDiag kn ∈
        ((((children.filter (fun p => (Pair.key p).isSome)).map (objPair ks vs ctx)).map
          PairOut.direct).flatten).filter Diag.isUnknown :=
      List.mem_filter.2 ⟨hmem, rfl⟩
    rw [objPairs_direct_unknown ks vs ctx children] at hmem2
    obtain ⟨kn', hkn', heq⟩ := List.mem_map.1 hmem2
    have hkk : kn' = kn := mkUnknownDiag_inj heq
    subst hkk
    have h2 := (List.mem_filter.1 hkn').2
    rw [hk2] at h2
    simp at h2

/-- Witness for C2: schema `["a"]` against given keys `a`, `z`, `z`. -/
def childrenU : List Pair :=
  [(some ⟨"a", ⟨1, 4⟩⟩, some (.str ⟨5, 8⟩ "v")),
   (some ⟨"z", ⟨9, 12⟩⟩, none),
   (some ⟨"z", ⟨13, 16⟩⟩, some (.nullNode ⟨17, 18⟩))]

/-- Witness for C2: both occurrences of the undeclared `z` are reported, in
input order, and the declared `a` is not. -/
theorem C2_object_unknown_witness :
    ((((childrenU.filter (fun p => (Pair.key p).isSome)).map
        (objPair ["a"] vsW ctx0)).map PairOut.direct).flatten).filter Diag.isUnknown =
      [mkUnknownDiag ⟨"z", ⟨9, 12⟩⟩, mkUnknownDiag ⟨"z", ⟨13, 16⟩⟩] := by
  have h := C2_object_unknown ["a"] vsW ⟨0, 20⟩ childrenU ctx0
  rw [h.2.1]
  rfl

/-- Claim C7: a given key declared in the schema and flagged deprecated yields
exactly one deprecated-usage diagnostic of `Hint` severity carrying the
`deprecated` tag, anchored at that key node, and the property's checker is
still applied to the value node (or the synthetic null placeholder) exactly as
for the same property without the deprecation flag: nested diagnostics and
hover writes are identical, and the bare property reports nothing directly. -/
theorem C7_object_deprecated
    (ks : List String) (vs vs' : String → CheckerProperty)
    (ctx : JsonCheckerContext) (kn : KeyNode) (val : Option JsonNode) (c : JsonChecker)
    (hdecl : ks.contains kn.value = true)
    (hdep : vs kn.value = .complex (deprecated c))
    (hbare : vs' kn.value = .bare c) :
    (objPair ks vs ctx ((some kn, val) : Pair)).direct = [mkDeprecatedDiag kn] ∧
    (mkDeprecatedDiag kn).severity = .Hint ∧
    (mkDeprecatedDiag kn).deprecatedTag = true ∧
    (mkDeprecatedDiag kn).range = kn.range ∧
    (objPair ks vs' ctx ((some kn, val) : Pair)).direct = [] ∧
    (objPair ks vs ctx ((some kn, val) : Pair)).nested =
      (c (val.getD nullPlaceholder)
        { ctx with context := extendContext ctx.context (.bare c) kn.value }).diags ∧
    (objPair ks vs ctx ((some kn, val) : Pair)).nested =
      (objPair ks vs' ctx ((some kn, val) : Pair)).nested ∧
    (objPair ks vs ctx ((some kn, val) : Pair)).hovers =
      (objPair ks vs' ctx ((some kn, val) : Pair)).hovers := by
  have hc : kn.value ∈ ks := by
    simpa [List.elem_eq_mem] using hdecl
  refine ⟨?_, rfl, rfl, rfl, ?_, ?_, ?_, ?_⟩ <;>
    simp [objPair, Pair.key, Pair.value, hc, hdep, hbare, deprecated,
      CheckerProperty.deprecatedOf, CheckerProperty.checkerOf, CheckerProperty.contextOf,
      extendContext]

/-- Witness for C7: key `d` deprecated vs bare, absent value (null
placeholder). -/
theorem C7_object_deprecated_witness :
    (objPair ["d"] (fun _ => .complex (deprecated leafChecker)) ctx0
      ((some ⟨"d", ⟨2, 5⟩⟩, none) : Pair)).direct = [mkDeprecatedDiag ⟨"d", ⟨2, 5⟩⟩] ∧
    (objPair ["d"] (fun _ => .bare leafChecker) ctx0
      ((some ⟨"d", ⟨2, 5⟩⟩, none) : Pair)).direct = [] ∧
    (objPair ["d"] (fun _ => .complex (deprecated leafChecker)) ctx0
      ((some ⟨"d", ⟨2, 5⟩⟩, none) : Pair)).nested =
      (objPair ["d"] (fun _ => .bare leafChecker) ctx0
        ((some ⟨"d", ⟨2, 5⟩⟩, none) : Pair)).nested := by
  have h := C7_object_deprecated ["d"] (fun _ => .complex (deprecated leafChecker))
    (fun _ => .bare leafChecker) ctx0 ⟨"d", ⟨2, 5⟩⟩ none leafChecker (by decide) rfl rfl
  exact ⟨h.1, h.2.2.2.2.1, h.2.2.2.2.2.2.1⟩

/-- Claim C4: `having` with no candidate marker key present reports exactly one
missing-property diagnostic naming all candidate marker keys, anchored at the
one-character range at the node's range start, and returns (with no second
diagnostic) the fallback record mapping each candidate key `k` to the property
spec at key `k` of that candidate's own branch, evaluating producer-function
branches; with exactly one candidate marker key present it returns that case's
record (evaluated if a producer function) and reports nothing. -/
theorem C4_having (node : JsonNode) (ctx : JsonCheckerContext)
    (cases : List (String × HavingCase)) (k : String) :
    ((cases.map Prod.fst).find? (fun c => (givenOptKeys node).contains (some c)) = none →
      having node ctx cases =
        ([havingMissingDiag (cases.map Prod.fst) node.range.start],
         cases.map (fun kv => (kv.1, recordGet (evalCase kv.2) kv.1)))) ∧
    ((cases.map Prod.fst).filter (fun c => (givenOptKeys node).contains (some c)) = [k] →
      having node ctx cases =
        ([], CheckerRecord.toU (evalCase ((havingGet cases k).getD (.inl []))))) := by
  constructor
  · intro h
    simp only [having]
    rw [h]
  · intro h
    have hf : (cases.map Prod.fst).find?
        (fun c => (givenOptKeys node).contains (some c)) = some k := by
      rw [find?_eq_head?_filter, h]
      rfl
    simp only [having]
    rw [hf]

/-- A concrete case table for `having`: `m1` a direct record containing its own
marker, `m2` a producer function. -/
def casesH : List (String × HavingCase) :=
  [("m1", .inl [("m1", .bare leafChecker), ("y", .bare leafChecker)]),
   ("m2", .inr (fun _ => [("m2", .complex (opt leafChecker))]))]

/-- An object with neither marker key. -/
def nodeH0 : JsonNode := .obj ⟨0, 9⟩ [(some ⟨"q", ⟨1, 2⟩⟩, none)]

/-- An object with only the `m1` marker key. -/
def nodeH1 : JsonNode := .obj ⟨0, 9⟩ [(some ⟨"m1", ⟨1, 3⟩⟩, some (.nullNode ⟨5, 6⟩))]

/-- An object with both marker keys, `m2` first in input order. -/
def nodeH2 : JsonNode :=
  .obj ⟨0, 9⟩ [(some ⟨"m2", ⟨1, 3⟩⟩, none), (some ⟨"m1", ⟨4, 6⟩⟩, none)]

/-- Witness for C4: no marker present, and exactly `m1` present. -/
theorem C4_having_witness :
    having nodeH0 ctx0 casesH =
      ([havingMissingDiag (casesH.map Prod.fst) nodeH0.range.start],
       casesH.map (fun kv => (kv.1, recordGet (evalCase kv.2) kv.1))) ∧
    having nodeH1 ctx0 casesH =
      ([], CheckerRecord.toU (evalCase ((havingGet casesH "m1").getD (.inl [])))) :=
  ⟨(C4_having nodeH0 ctx0 casesH "m1").1 rfl,
   (C4_having nodeH1 ctx0 casesH "m1").2 rfl⟩

/-- Claim C10: when two or more candidate marker keys are present, `having`
reports no diagnostic and deterministically returns the case record of the
first present candidate in the declaration order of the case table's keys. -/
theorem C10_having_multiple (node : JsonNode) (ctx : JsonCheckerContext)
    (cases : List (String × HavingCase)) (k₀ : String)
    (hfirst : (cases.map Prod.fst).find?
      (fun c => (givenOptKeys node).contains (some c)) = some k₀)
    (_hmulti : 2 ≤ ((cases.map Prod.fst).filter
      (fun c => (givenOptKeys node).contains (some c))).length) :
    (having node ctx cases).1 = [] ∧
    (having node ctx cases).2 =
      CheckerRecord.toU (evalCase ((havingGet cases k₀).getD (.inl []))) ∧
    ((cases.map Prod.fst).filter
      (fun c => (givenOptKeys node).contains (some c))).head? = some k₀ := by
  refine ⟨?_, ?_, ?_⟩
  · simp only [having]
    rw [hfirst]
  · simp only [having]
    rw [hfirst]
  · rw [← find?_eq_head?_filter]
    exact hfirst

/-- Witness for C10: both markers present (with `m2` first in the input), the
declaration-first `m1` is selected and nothing is reported. -/
theorem C10_having_multiple_witness :
    (having nodeH2 ctx0 casesH).1 = [] ∧
    (having nodeH2 ctx0 casesH).2 =
      CheckerRecord.toU (evalCase ((havingGet casesH "m1").getD (.inl []))) :=
  ⟨(C10_having_multiple nodeH2 ctx0 casesH "m1" rfl (by decide)).1,
   (C10_having_multiple nodeH2 ctx0 casesH "m1" rfl (by decide)).2.1⟩

/-- Claim C8: checkers are pure functions of node, context and table state, and
the only cross-run mutable state — the case table `pick` rewrites in place — is
left at a fixpoint by the first run: a second `pick` of the same discriminant
returns the same record and table, and the canonical stateful composition
`dispatch(key, v => record(pick(v, cases)))` run a second time on the same
unmodified tree produces identical diagnostics, hover text and expectation,
leaving the table unchanged again. -/
theorem C8_rerun_stable (value : Option String) (s₀ : CasesTable) (keyName : String)
    (node : JsonNode) (ctx : JsonCheckerContext) :
    pick value (pick value s₀).2 = pick value s₀ ∧
    runPickDispatch keyName (runPickDispatch keyName s₀ node ctx).2 node ctx =
      runPickDispatch keyName s₀ node ctx := by
  refine ⟨pick_fixpoint value s₀, ?_⟩
  cases node with
  | obj rng children =>
    simp only [runPickDispatch]
    rw [pick_fixpoint]
  | str r v => rfl
  | nullNode r => rfl
  | other r t => rfl

end Spyglass
